import Mathlib

/-!
Verification development for the `agent_factory` repository.

The Python modules under `src/agent_factory/` are shallowly embedded as
executable Lean definitions.  Python `dict`s keyed by strings are modelled as
association lists with first-match lookup; `__setitem__` replaces the value of
an existing key in place (preserving insertion order) and otherwise appends,
matching CPython dict semantics.  Raised exceptions are modelled with
`Except String`.  `datetime.now()` is passed in as an explicit `now` argument,
making the embedding deterministic.
-/

namespace AgentFactory

/-- Model of a Python `dict` with string keys: an association list where the
first binding of a key is the binding (dicts built by the modelled code never
hold a key twice). -/
def PyDict (V : Type) : Type := List (String × V)

instance (V : Type) [DecidableEq V] : DecidableEq (PyDict V) := by
  unfold PyDict
  infer_instance

namespace PyDict

/-- Python `d.get(k)` / `d[k]`: value of the first binding of `k`. -/
def lookup {V : Type} : PyDict V → String → Option V
  | [], _ => none
  | (k', v') :: rest, k => if k' = k then some v' else lookup rest k

/-- Python `d[k] = v`: replace the value of an existing binding of `k` in
place, otherwise append a new binding. -/
def insert {V : Type} : PyDict V → String → V → PyDict V
  | [], k, v => [(k, v)]
  | (k', v') :: rest, k, v =>
      if k' = k then (k, v) :: rest else (k', v') :: insert rest k v

/-- Python `d.update(e)` and the dict-display merge `\x7b**d, **e\x7d`: insert
every binding of `e` into `d`, left to right. -/
def update {V : Type} (d e : PyDict V) : PyDict V :=
  e.foldl (fun acc kv => insert acc kv.1 kv.2) d

/-- Python `del d[k]`: drop the first binding of `k`. -/
def remove {V : Type} : PyDict V → String → PyDict V
  | [], _ => []
  | (k', v') :: rest, k => if k' = k then rest else (k', v') :: remove rest k

/-- Python `list(d.keys())`. -/
def keys {V : Type} (d : PyDict V) : List String := d.map Prod.fst

/-- Python falsiness of a dict: empty. -/
def isEmpty {V : Type} (d : PyDict V) : Bool := List.isEmpty d

end PyDict

/-!
Embedding of `src/agent_factory/workflows/workflow_manager.py`.

A workflow step is a dict with keys `agent`, `task`, `context`, `type`; the
manager reads them with `.get`, so `agent` and `task` may be absent (`None`).
The value type of context dictionaries is a parameter `V`.  An agent passed in
the `agents` argument is used by the manager only through its
`execute(task, context)` method, so it is embedded as a function from the task
and the merged context to a behaviour: either a returned result dict or a
raised exception carrying its message.
-/

/-- One workflow step, as stored in `workflow["steps"]`.  `context` models
`step.get("context", \x7b\x7d)` and `type` models `step.get("type",
"sequential")`; the latter is read into `step_type` at line 79 and never used
afterwards. -/
structure Step (V : Type) where
  agent : Option String
  task : Option String
  context : PyDict V
  type : String
deriving DecidableEq

/-- The part of the dict returned by `agent.execute` that the manager consumes:
`result.get("success", True)` and `result.get("output_context", \x7b\x7d)`.
`none` models an absent key.  Any further keys of the result dict never
influence the manager. -/
structure AgentResult (V : Type) where
  success : Option Bool
  output_context : Option (PyDict V)
deriving DecidableEq

/-- Behaviour of one `agent.execute(task, context)` call: a returned result
dict, or a raised exception with its `str(e)` message. -/
inductive AgentBeh (V : Type) where
  | ok (r : AgentResult V)
  | raise (msg : String)

/-- An agent as the workflow manager sees it: its `execute` method. -/
def AgentFun (V : Type) : Type := Option String → PyDict V → AgentBeh V

/-- A step result dict as appended to `results` (lines 95-101 on the normal
path, lines 113-119 on the exception path).  `result` is present exactly on
the normal path and `error` exactly on the exception path. -/
structure StepResult (V : Type) where
  step : Nat
  agent : Option String
  task : Option String
  result : Option (AgentResult V)
  success : Bool
  error : Option String
deriving DecidableEq

/-- Line 92: `step_context = \x7b**context, **step.get("context", \x7b\x7d)\x7d`. -/
def stepContextOf {V : Type} (ctx : PyDict V) (s : Step V) : PyDict V :=
  PyDict.update ctx s.context

/-- Line 107: `context.update(result.get("output_context", \x7b\x7d))`. -/
def contextAfterStep {V : Type} (ctx : PyDict V) (r : AgentResult V) : PyDict V :=
  PyDict.update ctx (r.output_context.getD [])

/-- Line 84: `f"Agent \x27\x7bagent_name\x7d\x27 not found for step \x7bi+1\x7d"`
(Python formats `None` as the string `None`). -/
def notFoundMessage (a : Option String) (n : Nat) : String :=
  "Agent \x27" ++ (match a with | none => "None" | some s => s) ++
    "\x27 not found for step " ++ toString n

/-- Outcome of the step loop (lines 76-120): either the early `return` of
lines 82-86 on an agent-map miss, or the loop running to its end (exhausting
the steps, or `break`-ing on a failed or raising step).  `ctx` is the value of
`context` at that point and `invoked` records the 1-based indices of the steps
whose `agent.execute` was actually called. -/
inductive LoopOut (V : Type) where
  | missing (error : String) (results : List (StepResult V)) (ctx : PyDict V)
      (invoked : List Nat)
  | finished (results : List (StepResult V)) (ctx : PyDict V) (invoked : List Nat)

/-- Step results carried by a loop outcome. -/
def LoopOut.results {V : Type} : LoopOut V → List (StepResult V)
  | .missing _ res _ _ => res
  | .finished res _ _ => res

/-- Final `context` value carried by a loop outcome. -/
def LoopOut.ctxOut {V : Type} : LoopOut V → PyDict V
  | .missing _ _ c _ => c
  | .finished _ c _ => c

/-- Invocation trace carried by a loop outcome. -/
def LoopOut.invoked {V : Type} : LoopOut V → List Nat
  | .missing _ _ _ inv => inv
  | .finished _ _ inv => inv

/-- The `for i, step in enumerate(workflow["steps"])` loop of lines 76-120.
`i` is the 0-based index of the first step of the remaining list, `ctx` the
current `context`, `acc` the `results` accumulated so far and `inv` the step
indices invoked so far. -/
def runSteps {V : Type} (agents : PyDict (AgentFun V)) :
    List (Step V) → Nat → PyDict V → List (StepResult V) → List Nat → LoopOut V
  | [], _, ctx, acc, inv => .finished acc ctx inv
  | s :: rest, i, ctx, acc, inv =>
    match s.agent.bind (fun n => PyDict.lookup agents n) with
    | none => .missing (notFoundMessage s.agent (i + 1)) acc ctx inv
    | some f =>
      match f s.task (stepContextOf ctx s) with
      | .raise msg =>
          .finished (acc ++ [⟨i + 1, s.agent, s.task, none, false, some msg⟩])
            ctx (inv ++ [i + 1])
      | .ok r =>
          let sr : StepResult V :=
            ⟨i + 1, s.agent, s.task, some r, r.success.getD true, none⟩
          if r.success.getD true then
            runSteps agents rest (i + 1) (contextAfterStep ctx r)
              (acc ++ [sr]) (inv ++ [i + 1])
          else
            .finished (acc ++ [sr]) ctx (inv ++ [i + 1])

/-- The `output_context` contribution of a recorded step result: the
`output_context` of its agent result, empty when absent (and empty on the
exception path, which stores no result and merges nothing). -/
def outputOf {V : Type} (sr : StepResult V) : PyDict V :=
  (sr.result.map (fun r => r.output_context.getD [])).getD []

/-- The `execution_result` dict of lines 122-129. -/
structure ExecutionRecord (V : Type) where
  workflow : String
  success : Bool
  steps_completed : Nat
  total_steps : Nat
  results : List (StepResult V)
  final_context : PyDict V
deriving DecidableEq

/-- Value returned by `execute_workflow`: the early error dict of lines 82-86,
or the full execution record of lines 122-129. -/
inductive ExecValue (V : Type) where
  | missingAgent (error : String) (results : List (StepResult V))
  | record (r : ExecutionRecord V)
deriving DecidableEq

/-- Step results carried by a returned value. -/
def ExecValue.resultsOf {V : Type} : ExecValue V → List (StepResult V)
  | .missingAgent _ res => res
  | .record r => r.results

/-- A workflow dict as stored by `create_workflow` (lines 41-46). -/
structure Workflow (V : Type) where
  name : String
  description : String
  steps : List (Step V)
  status : String
deriving DecidableEq

/-- The manager state: `self.workflows` and `self.execution_history`.  The
history stores the execution-result dicts appended at line 131 (only full
records reach it; the early return of lines 82-86 never does). -/
structure WorkflowManager (V : Type) where
  workflows : PyDict (Workflow V)
  execution_history : List (ExecutionRecord V)
deriving DecidableEq

/-- Method `WorkflowManager.__init__`. -/
def initManager {V : Type} : WorkflowManager V := ⟨[], []⟩

/-- Method `WorkflowManager.create_workflow` (lines 20-49). -/
def create_workflow {V : Type} (wm : WorkflowManager V) (name description : String)
    (steps : List (Step V)) : Except String (Workflow V × WorkflowManager V) :=
  if (PyDict.lookup wm.workflows name).isSome then
    .error ("Workflow \x27" ++ name ++ "\x27 already exists")
  else
    let wf : Workflow V := ⟨name, description, steps, "created"⟩
    .ok (wf, { wm with workflows := PyDict.insert wm.workflows name wf })

/-- Method `WorkflowManager.delete_workflow` (lines 155-168). -/
def delete_workflow {V : Type} (wm : WorkflowManager V) (name : String) :
    Bool × WorkflowManager V :=
  if (PyDict.lookup wm.workflows name).isSome then
    (true, { wm with workflows := PyDict.remove wm.workflows name })
  else
    (false, wm)

/-- Content of the dict object the caller passed as `initial_context` once
`execute_workflow` returns.  Line 73 binds `context = initial_context or
\x7b\x7d`: when `initial_context` is truthy (a non-empty dict), `context` is
the very caller object and every later `context.update(...)` at line 107
mutates it; when `initial_context` is `None` or an empty dict, `context` is a
fresh dict and the caller object is never touched. -/
def callerContextAfter {V : Type} : Option (PyDict V) → PyDict V → Option (PyDict V)
  | none, _ => none
  | some d, ctxEnd => if List.isEmpty d then some d else some ctxEnd

/-- Line 73: value of `context = initial_context or \x7b\x7d` (an absent or
empty `initial_context` yields a fresh empty dict). -/
def initialContextValue {V : Type} : Option (PyDict V) → PyDict V
  | none => []
  | some d => d

/-- Method `WorkflowManager.execute_workflow` (lines 51-132).  Returns the value the
Python method returns, the manager state after the call, and the content of
the caller's `initial_context` dict after the call.  The record's `success` is
`all(r.get("success", False) for r in results)` (line 124); every appended
step result carries the `success` key, so it is the conjunction of their
`success` fields. -/
def execute_workflow {V : Type} (wm : WorkflowManager V) (name : String)
    (agents : PyDict (AgentFun V)) (initial_context : Option (PyDict V)) :
    Except String (ExecValue V × WorkflowManager V × Option (PyDict V)) :=
  match PyDict.lookup wm.workflows name with
  | none => .error ("Workflow \x27" ++ name ++ "\x27 not found")
  | some wf =>
    match runSteps agents wf.steps 0 (initialContextValue initial_context) [] [] with
    | .missing err results ctxEnd _ =>
        .ok (.missingAgent err results, wm, callerContextAfter initial_context ctxEnd)
    | .finished results ctxEnd _ =>
        let record : ExecutionRecord V :=
          { workflow := name
            success := results.all (fun sr => sr.success)
            steps_completed := results.length
            total_steps := wf.steps.length
            results := results
            final_context := ctxEnd }
        .ok (.record record,
          { wm with execution_history := wm.execution_history ++ [record] },
          callerContextAfter initial_context ctxEnd)

/-- The 1-based indices of the steps whose `agent.execute` is invoked during
`execute_workflow wm name agents initial_context` (empty when the workflow
name is unknown). -/
def executionTrace {V : Type} (wm : WorkflowManager V) (name : String)
    (agents : PyDict (AgentFun V)) (initial_context : Option (PyDict V)) :
    List Nat :=
  match PyDict.lookup wm.workflows name with
  | none => []
  | some wf =>
    (runSteps agents wf.steps 0 (initialContextValue initial_context) [] []).invoked

instance instDecEqExcept {ε α : Type} [DecidableEq ε] [DecidableEq α] :
    DecidableEq (Except ε α) := fun a b => by
  cases a with
  | error e =>
      cases b with
      | error e2 => exact decidable_of_iff (e = e2) (by simp)
      | ok v => exact .isFalse (by simp)
  | ok v =>
      cases b with
      | error e2 => exact .isFalse (by simp)
      | ok v2 => exact decidable_of_iff (v = v2) (by simp)

/-- Sample objects used by the witness theorems: an empty one-workflow manager
and its record for a run with no steps. -/
def wmEmptySteps : WorkflowManager Nat :=
  ⟨[("w", ⟨"w", "", [], "created"⟩)], []⟩

/-- Execution record produced by running the empty workflow of
`wmEmptySteps`. -/
def recEmptySteps : ExecutionRecord Nat := ⟨"w", true, 0, 0, [], []⟩

/-- Sample agent that always returns a bare success dict. -/
def okAgentNat : AgentFun Nat := fun _ _ => .ok ⟨some true, none⟩

/-- Sample step invoking the agent named `a` with task `t1`. -/
def stepA : Step Nat := ⟨some "a", some "t1", [], "sequential"⟩

/-- Sample step invoking the agent named `b` with task `t2`. -/
def stepB : Step Nat := ⟨some "b", some "t2", [], "sequential"⟩

/-- Sample step invoking the agent named `c` with task `t3`. -/
def stepC : Step Nat := ⟨some "c", some "t3", [], "sequential"⟩

/-- Sample manager holding a three-step workflow `w` over agents a, b, c. -/
def wmThreeSteps : WorkflowManager Nat :=
  ⟨[("w", ⟨"w", "", [stepA, stepB, stepC], "created"⟩)], []⟩

/-- Sample agent map supplying agents `a` and `c` but not `b`. -/
def agentsAC : PyDict (AgentFun Nat) := [("a", okAgentNat), ("c", okAgentNat)]

/-- Step result produced by running `stepA` against `okAgentNat`. -/
def srA : StepResult Nat := ⟨1, some "a", some "t1", some ⟨some true, none⟩, true, none⟩

/-- Sample agent returning success with a non-empty `output_context`. -/
def outAgentNat : AgentFun Nat := fun _ _ => .ok ⟨some true, some [("k", 1)]⟩

/-- Sample manager holding the one-step workflow `w` over agent `a`. -/
def wmOneStep : WorkflowManager Nat := ⟨[("w", ⟨"w", "", [stepA], "created"⟩)], []⟩

/-- Step result of running `stepA` against `outAgentNat`. -/
def srOut : StepResult Nat :=
  ⟨1, some "a", some "t1", some ⟨some true, some [("k", 1)]⟩, true, none⟩

/-- Execution record of running `wmOneStep` with `outAgentNat` from the
initial context `[("a0", 0)]`. -/
def recOut : ExecutionRecord Nat :=
  ⟨"w", true, 1, 1, [srOut], [("a0", 0), ("k", 1)]⟩

/-- Sample step carrying its own step-level context binding for key `k`. -/
def stepD : Step Nat := ⟨some "a", some "t", [("k", 5)], "sequential"⟩

/-!
Embedding of `src/agent_factory/core/base_agent.py` (constructor, state and
`export_state`) and `src/agent_factory/utils/serializer.py`.  `json.dumps` /
`json.loads` of a JSON-representable state is a faithful round trip, so the
JSON document is modelled structurally rather than as a string.  Concrete
subclasses add only attributes computed from `config` by their constructors
and bookkeeping lists; the base attributes below are the ones serialization
touches.
-/

/-- The `self.metadata` dict built by `BaseAgent.__init__` (lines 29-32). -/
structure AgentMetadata where
  version : String
  capabilities : List String
deriving DecidableEq

/-- An agent class as constructor calls see it: its `__name__` (stored into
`agent_type`) and the capability list its `get_capabilities` returns. -/
structure AgentClassSpec where
  typeName : String
  capabilities : List String
deriving DecidableEq

/-- The base-agent attributes (lines 25-33).  `config` values and history
entries are opaque JSON values of type `V`. -/
structure BaseAgentState (V : Type) where
  name : String
  config : PyDict V
  agent_type : String
  created_at : String
  metadata : AgentMetadata
  history : List V
deriving DecidableEq

/-- Constructor call `agent_class(name=name, config=config)` hitting `BaseAgent.__init__`
(lines 17-33): `self.config = config or \x7b\x7d` (an absent or empty config
yields an empty dict), `agent_type` from the class, `created_at` from the
clock, `metadata = \x7b"version": "1.0.0", "capabilities": ...\x7d`, empty
history. -/
def mkBaseAgent {V : Type} (cls : AgentClassSpec) (name : String)
    (config : Option (PyDict V)) (now : String) : BaseAgentState V :=
  { name := name
    config := config.getD []
    agent_type := cls.typeName
    created_at := now
    metadata := ⟨"1.0.0", cls.capabilities⟩
    history := [] }

/-- The JSON document written by `BaseAgent.export_state` (lines 127-142). -/
structure AgentStateDoc (V : Type) where
  name : String
  type : String
  config : PyDict V
  created_at : String
  metadata : AgentMetadata
  history : List V
deriving DecidableEq

/-- Method `BaseAgent.export_state` (lines 127-142). -/
def export_state {V : Type} (a : BaseAgentState V) : AgentStateDoc V :=
  ⟨a.name, a.agent_type, a.config, a.created_at, a.metadata, a.history⟩

/-- Function `deserialize_agent` (serializer.py lines 21-45): instantiate the
caller-supplied class with the document's `name` and `config`, then overwrite
`created_at`, `history` and `metadata` from the document. -/
def deserialize_agent {V : Type} (st : AgentStateDoc V) (cls : AgentClassSpec)
    (now : String) : BaseAgentState V :=
  let a := mkBaseAgent cls st.name (some st.config) now
  { a with
    created_at := st.created_at
    history := st.history
    metadata := st.metadata }

/-!
Embedding of `BaseAgent.validate_input` (base_agent.py lines 59-74) and the
`execute` methods of the four concrete agents under
`src/agent_factory/templates/`.  Tasks and contexts arrive as arbitrary Python
values; context dicts map string keys to string values, which covers every
`.get` the template agents perform.  Result dicts are embedded as structures
whose `Option` fields model present-or-absent keys; constant decorative fields
of the success dicts (suggestions, metadata, analysis details, pipeline
configs, task breakdowns) are computed from the same inputs and never
consulted by any code under verification, and are elided.  `log_execution`
(lines 76-90) also stores a copy of the result in the entry; the entry here
keeps the timestamp, task and agent type.
-/

/-- A Python runtime value as far as `validate_input` discriminates it. -/
inductive PyVal where
  | pynone
  | pystr (s : String)
  | pyint (n : Int)
  | pybool (b : Bool)
  | pylist (xs : List String)
  | pydict (entries : PyDict String)
deriving DecidableEq

/-- Method `BaseAgent.validate_input` (lines 59-74): reject a `None` or non-string
task, and a context that is neither `None` nor a dict. -/
def validate_input (task : PyVal) (context : PyVal) : Bool :=
  match task with
  | .pystr _ =>
      match context with
      | .pynone => true
      | .pydict _ => true
      | _ => false
  | _ => false

/-- The string payload of a task that passed validation (unreachable default
for other shapes). -/
def taskString : PyVal → String
  | .pystr s => s
  | _ => ""

/-- Binding `context = context or \x7b\x7d` followed by `context.get(key, default)`
(a validated context is `None` or a dict). -/
def ctxGet (context : PyVal) (key dflt : String) : String :=
  match context with
  | .pydict d => (PyDict.lookup d key).getD dflt
  | _ => dflt

/-- An entry of `self.history` as appended by `log_execution`. -/
structure LogEntry where
  timestamp : String
  task : String
  agent_type : String
deriving DecidableEq

/-- Method `CodingAgent._generate_code_template` (coding_agent.py lines 84-102). -/
def generate_code_template (task language : String) : String :=
  if language = "Python" then
    "\x22\x22\x22\n" ++ task ++ "\n\x22\x22\x22\n\ndef main():\n    # TODO: Implement "
      ++ task ++ "\n    pass\n\nif __name__ == \x22__main__\x22:\n    main()"
  else if language = "JavaScript" then
    "/**\n * " ++ task ++ "\n */\n\nfunction main() \x7b\n    // TODO: Implement "
      ++ task ++ "\n\x7d\n\nmain();"
  else if language = "Java" then
    "/**\n * " ++ task ++ "\n */\npublic class Main \x7b\n    public static void main(String[] args) \x7b\n        // TODO: Implement "
      ++ task ++ "\n    \x7d\n\x7d"
  else
    "// " ++ task ++ "\n// TODO: Implement for " ++ language

/-- The keys of the dict returned by `CodingAgent.execute` that the claims
observe; `none` models an absent or null key. -/
structure CodingResult where
  success : Bool
  error : Option String
  task : Option String
  language : Option String
  code : Option String
deriving DecidableEq

/-- State of `CodingAgent` touched by `execute`: the shared history. -/
structure CodingAgentState where
  style_guide : String
  history : List LogEntry
deriving DecidableEq

/-- Method `CodingAgent.execute` (coding_agent.py lines 45-82). -/
def coding_execute (a : CodingAgentState) (task context : PyVal) (now : String) :
    CodingResult × CodingAgentState :=
  if validate_input task context then
    let t := taskString task
    let language := ctxGet context "language" "Python"
    let result : CodingResult :=
      ⟨true, none, some t, some language, some (generate_code_template t language)⟩
    (result, { a with history := a.history ++ [⟨now, t, "CodingAgent"⟩] })
  else
    (⟨false, some "Invalid input provided", none, none, none⟩, a)

/-- Method `DebuggingAgent._assess_severity` (debugging_agent.py lines 166-183). -/
def assess_severity (error_type : String) : String :=
  if error_type = "MemoryError" ∨ error_type = "StackOverflowError"
      ∨ error_type = "SecurityException" then "critical"
  else if error_type = "NullPointerException" ∨ error_type = "IndexError" then "high"
  else "medium"

/-- The observed keys of the dict returned by `DebuggingAgent.execute`. -/
structure DebuggingResult where
  success : Bool
  error : Option String
  task : Option String
  error_type : Option String
  severity : Option String
deriving DecidableEq

/-- State of `DebuggingAgent` touched by `execute`: the bug database entries
(description and error type; `_log_bug` also stores the analysis and a
timestamp) and the shared history. -/
structure DebuggingAgentState where
  bug_database : List (String × String)
  history : List LogEntry
deriving DecidableEq

/-- Method `DebuggingAgent.execute` (debugging_agent.py lines 48-86). -/
def debugging_execute (a : DebuggingAgentState) (task context : PyVal)
    (now : String) : DebuggingResult × DebuggingAgentState :=
  if validate_input task context then
    let t := taskString task
    let error_type := ctxGet context "error_type" "unknown"
    let result : DebuggingResult :=
      ⟨true, none, some t, some error_type, some (assess_severity error_type)⟩
    (result,
      { a with
        bug_database := a.bug_database ++ [(t, error_type)]
        history := a.history ++ [⟨now, t, "DebuggingAgent"⟩] })
  else
    (⟨false, some "Invalid input provided", none, none, none⟩, a)

/-- Method `PlanningAgent._create_phases` (planning_agent.py lines 86-112): phase
name and duration per methodology (the `complexity` argument is ignored by the
source). -/
def create_phases (methodology : String) : List (String × String) :=
  if methodology = "agile" then
    [("Sprint Planning", "1 week"), ("Development Sprint 1", "2 weeks"),
     ("Development Sprint 2", "2 weeks"), ("Testing & QA", "1 week"),
     ("Deployment", "3 days")]
  else
    [("Requirements Analysis", "1 week"), ("Design", "2 weeks"),
     ("Implementation", "4 weeks"), ("Testing", "2 weeks"),
     ("Deployment", "1 week")]

/-- The observed keys of the dict returned by `PlanningAgent.execute`. -/
structure PlanningResult where
  success : Bool
  error : Option String
  project : Option String
  methodology : Option String
  complexity : Option String
  deadline : Option String
  phases : Option (List (String × String))
deriving DecidableEq

/-- State of `PlanningAgent` touched by `execute`. -/
structure PlanningAgentState where
  methodology : String
  plans : List PlanningResult
  history : List LogEntry
deriving DecidableEq

/-- Method `PlanningAgent.execute` (planning_agent.py lines 44-83). -/
def planning_execute (a : PlanningAgentState) (task context : PyVal)
    (now : String) : PlanningResult × PlanningAgentState :=
  if validate_input task context then
    let t := taskString task
    let complexity := ctxGet context "complexity" "medium"
    let deadline := ctxGet context "deadline" "not specified"
    let result : PlanningResult :=
      ⟨true, none, some t, some a.methodology, some complexity, some deadline,
        some (create_phases a.methodology)⟩
    (result,
      { a with
        plans := a.plans ++ [result]
        history := a.history ++ [⟨now, t, "PlanningAgent"⟩] })
  else
    (⟨false, some "Invalid input provided", none, none, none, none, none⟩, a)

/-- The observed keys of the dict returned by `BuildingAgent.execute`. -/
structure BuildingResult where
  success : Bool
  error : Option String
  task : Option String
  platform : Option String
  language : Option String
  environment : Option String
deriving DecidableEq

/-- State of `BuildingAgent` touched by `execute`. -/
structure BuildingAgentState where
  build_history : List BuildingResult
  history : List LogEntry
deriving DecidableEq

/-- Method `BuildingAgent.execute` (building_agent.py lines 49-89). -/
def building_execute (a : BuildingAgentState) (task context : PyVal)
    (now : String) : BuildingResult × BuildingAgentState :=
  if validate_input task context then
    let t := taskString task
    let platform := ctxGet context "platform" "GitHub Actions"
    let language := ctxGet context "language" "Python"
    let environment := ctxGet context "environment" "production"
    let result : BuildingResult :=
      ⟨true, none, some t, some platform, some language, some environment⟩
    (result,
      { a with
        build_history := a.build_history ++ [result]
        history := a.history ++ [⟨now, t, "BuildingAgent"⟩] })
  else
    (⟨false, some "Invalid input provided", none, none, none, none⟩, a)

/-!
Embedding of `src/agent_factory/core/factory.py` (creation and lookup of
agent instances) and the registry it consults.  A registered agent class is
represented by its `AgentClassSpec`; instantiating it runs the base
constructor `mkBaseAgent` (the subclass constructors add only
config-derived attributes).
-/

/-- State of `AgentFactory`: its registry (`AgentRegistry._agents`) and
`self.active_agents`. -/
structure FactoryState (V : Type) where
  registry : PyDict AgentClassSpec
  active_agents : PyDict (BaseAgentState V)
deriving DecidableEq

/-- Method `AgentFactory.create_agent` (factory.py lines 21-52): ValueError when the
type is unregistered or the name is already active, otherwise instantiate the
registered class, store the instance under `name`, and return it. -/
def create_agent {V : Type} (fs : FactoryState V) (agent_type name : String)
    (config : Option (PyDict V)) (now : String) :
    Except String (BaseAgentState V × FactoryState V) :=
  match PyDict.lookup fs.registry agent_type with
  | none =>
      .error ("Agent type \x27" ++ agent_type ++ "\x27 is not registered. "
        ++ "Available types: " ++ toString (PyDict.keys fs.registry))
  | some cls =>
      if (PyDict.lookup fs.active_agents name).isSome then
        .error ("Agent with name \x27" ++ name ++ "\x27 already exists")
      else
        let agent := mkBaseAgent cls name config now
        .ok (agent,
          { fs with active_agents := PyDict.insert fs.active_agents name agent })

/-- Method `AgentFactory.get_agent` (factory.py lines 54-64). -/
def get_agent {V : Type} (fs : FactoryState V) (name : String) :
    Option (BaseAgentState V) :=
  PyDict.lookup fs.active_agents name

/-- Sample factory with a single registered class and no active agents. -/
def fsSample : FactoryState Nat := ⟨[("coding", ⟨"CodingAgent", ["cap"]⟩)], []⟩

/-- The agent created by `fsSample` for name `n1` with no config at time
`T0`. -/
def agentSample : BaseAgentState Nat :=
  mkBaseAgent ⟨"CodingAgent", ["cap"]⟩ "n1" none "T0"

/-!
Heap model for the two getters that return `self.<list>.copy()`
(`WorkflowManager.get_execution_history`, lines 170-177, and
`BaseAgent.get_history`, lines 92-99).  Whether the caller receives the stored
list object or a copy is an aliasing property, so these two methods are
embedded against a small heap of list objects: a reference is an index into
the heap, reading a dangling reference yields the empty list, and the caller
mutating a list (append, remove, clear) is a write of some new contents
through their reference. -/

abbrev HeapList (α : Type) : Type := List (List α)

/-- Dereference: the list object behind `r`. -/
def hread {α : Type} (h : HeapList α) (r : Nat) : List α := List.getD h r []

/-- In-place mutation of the list object behind `r` (covers append, remove
and clear, which replace the contents with some new list). -/
def hwrite {α : Type} (h : HeapList α) (r : Nat) (xs : List α) : HeapList α :=
  List.set h r xs

/-- Allocation of a fresh list object with contents `xs`. -/
def halloc {α : Type} (h : HeapList α) (xs : List α) : Nat × HeapList α :=
  (h.length, h ++ [xs])

/-- Method `WorkflowManager.get_execution_history` (lines 170-177):
`return self.execution_history.copy()` — allocate a fresh list with the same
contents as the stored one and hand back a reference to it. -/
def get_execution_history_call {α : Type} (h : HeapList α) (histRef : Nat) :
    Nat × HeapList α :=
  halloc h (hread h histRef)

/-- Method `BaseAgent.get_history` (lines 92-99): `return self.history.copy()`. -/
def get_history_call {α : Type} (h : HeapList α) (histRef : Nat) :
    Nat × HeapList α :=
  halloc h (hread h histRef)

namespace PyDict

theorem lookup_insert_self {V : Type} (d : PyDict V) (k : String) (v : V) :
    lookup (insert d k v) k = some v := by
  induction d with
  | nil => simp [insert, lookup]
  | cons hd tl ih =>
      by_cases h : hd.1 = k
      · simp [insert, h, lookup]
      · simp [insert, h, lookup, ih]

theorem lookup_insert_ne {V : Type} (d : PyDict V) (k k2 : String) (v : V)
    (h : k2 ≠ k) : lookup (insert d k2 v) k = lookup d k := by
  induction d with
  | nil => simp [insert, lookup, h]
  | cons hd tl ih =>
      obtain ⟨k', v'⟩ := hd
      by_cases h2 : k' = k2
      · subst h2
        simp [insert, lookup, h]
      · simp [insert, h2, lookup, ih]

theorem lookup_update_notMem {V : Type} (d e : PyDict V) (k : String)
    (h : k ∉ keys e) : lookup (update d e) k = lookup d k := by
  induction e generalizing d with
  | nil => rfl
  | cons hd tl ih =>
      have hk : hd.1 ≠ k := by
        intro hEq
        exact h (by simp [keys, hEq])
      have htl : k ∉ keys tl := by
        intro hMem
        exact h (by simp [keys] at hMem ⊢; exact Or.inr hMem)
      show lookup (update (insert d hd.1 hd.2) tl) k = lookup d k
      rw [ih (insert d hd.1 hd.2) htl, lookup_insert_ne d k hd.1 hd.2 hk]

theorem lookup_update_mem {V : Type} (d e : PyDict V) (k : String) (v : V)
    (hnd : (keys e).Nodup) (h : lookup e k = some v) :
    lookup (update d e) k = some v := by
  induction e generalizing d with
  | nil => simp [lookup] at h
  | cons hd tl ih =>
      have hcons : (hd.1 :: keys tl).Nodup := by simpa [keys] using hnd
      have hnd2 := List.nodup_cons.mp hcons
      by_cases hk : hd.1 = k
      · have hv : v = hd.2 := by
          simp [lookup, hk] at h
          exact h.symm
        have hnotin : k ∉ keys tl := hk ▸ hnd2.1
        show lookup (update (insert d hd.1 hd.2) tl) k = some v
        rw [lookup_update_notMem (insert d hd.1 hd.2) tl k hnotin, ← hk,
          lookup_insert_self, hv]
      · have h' : lookup tl k = some v := by
          simpa [lookup, hk] using h
        show lookup (update (insert d hd.1 hd.2) tl) k = some v
        exact ih (insert d hd.1 hd.2) hnd2.2 h'

theorem update_nil {V : Type} (d : PyDict V) : update d [] = d := rfl

end PyDict

/-- Helper: a property holding for the head and for every element of the tail
except its last holds for every element of the cons except its last. -/
theorem forall_mem_dropLast_cons {α : Type} (P : α → Prop) (a : α) (l : List α)
    (ha : P a) (hl : ∀ x ∈ l.dropLast, P x) : ∀ x ∈ (a :: l).dropLast, P x := by
  cases l with
  | nil => simp
  | cons b t =>
      intro x hx
      rw [show (a :: b :: t).dropLast = a :: (b :: t).dropLast from rfl] at hx
      rcases List.mem_cons.mp hx with h | h
      · exact h ▸ ha
      · exact hl x h

/-- Shape of the step loop: whatever the outcome, the loop appends a block of
new step results whose 1-based indices are consecutive starting at `i + 1`,
invokes exactly the steps of that block, appends at most one result per
remaining step, and every appended result except possibly the last reports
success. -/
theorem runSteps_shape {V : Type} (agents : PyDict (AgentFun V))
    (steps : List (Step V)) :
    ∀ (i : Nat) (ctx : PyDict V) (acc : List (StepResult V)) (inv : List Nat),
    ∃ newR : List (StepResult V),
      (runSteps agents steps i ctx acc inv).results = acc ++ newR ∧
      (runSteps agents steps i ctx acc inv).invoked
        = inv ++ newR.map (fun sr => sr.step) ∧
      newR.map (fun sr => sr.step) = List.range' (i + 1) newR.length ∧
      newR.length ≤ steps.length ∧
      (∀ sr ∈ newR.dropLast, sr.success = true) := by
  induction steps with
  | nil =>
      intro i ctx acc inv
      exact ⟨[], by simp [runSteps, LoopOut.results], by simp [runSteps, LoopOut.invoked],
        by simp [List.range'], by simp, by simp⟩
  | cons s rest ih =>
      intro i ctx acc inv
      cases hag : s.agent.bind (fun n => PyDict.lookup agents n) with
      | none =>
          refine ⟨[], ?_, ?_, ?_, ?_, ?_⟩ <;>
            simp [runSteps, hag, LoopOut.results, LoopOut.invoked, List.range']
      | some f =>
          cases hbeh : f s.task (stepContextOf ctx s) with
          | raise msg =>
              refine ⟨[⟨i + 1, s.agent, s.task, none, false, some msg⟩],
                ?_, ?_, ?_, ?_, ?_⟩ <;>
                simp [runSteps, hag, hbeh, LoopOut.results, LoopOut.invoked, List.range']
          | ok r =>
              cases hsucc : r.success.getD true with
              | false =>
                  refine ⟨[⟨i + 1, s.agent, s.task, some r, r.success.getD true, none⟩],
                    ?_, ?_, ?_, ?_, ?_⟩ <;>
                    simp [runSteps, hag, hbeh, hsucc, LoopOut.results, LoopOut.invoked,
                      List.range']
              | true =>
                  obtain ⟨newR, h1, h2, h3, h4, h5⟩ :=
                    ih (i + 1) (contextAfterStep ctx r)
                      (acc ++ [⟨i + 1, s.agent, s.task, some r, r.success.getD true, none⟩])
                      (inv ++ [i + 1])
                  refine ⟨⟨i + 1, s.agent, s.task, some r, r.success.getD true, none⟩ :: newR,
                    ?_, ?_, ?_, ?_, ?_⟩
                  · rw [show (runSteps agents (s :: rest) i ctx acc inv)
                        = runSteps agents rest (i + 1) (contextAfterStep ctx r)
                          (acc ++ [⟨i + 1, s.agent, s.task, some r, r.success.getD true, none⟩])
                          (inv ++ [i + 1]) by
                      simp [runSteps, hag, hbeh, hsucc]]
                    rw [h1]
                    simp
                  · rw [show (runSteps agents (s :: rest) i ctx acc inv)
                        = runSteps agents rest (i + 1) (contextAfterStep ctx r)
                          (acc ++ [⟨i + 1, s.agent, s.task, some r, r.success.getD true, none⟩])
                          (inv ++ [i + 1]) by
                      simp [runSteps, hag, hbeh, hsucc]]
                    rw [h2]
                    simp
                  · simp only [List.map_cons, List.length_cons]
                    rw [show List.range' (i + 1) (newR.length + 1)
                        = (i + 1) :: List.range' (i + 2) newR.length from rfl]
                    rw [h3]
                  · simpa using Nat.succ_le_succ h4
                  · exact forall_mem_dropLast_cons _ _ _ (by simp [hsucc]) h5

/-- C4: for every execution of a workflow, `steps_completed` never exceeds
`total_steps`, the recorded step results carry consecutive 1-based indices
starting at 1 (so no result for a step after the stopping point appears), every
result except possibly the last reports success (execution halts at the first
failing or raising step), and the agents invoked are exactly the steps with a
result — no subsequent step's agent is ever invoked. -/
theorem workflow_halts_on_first_failure {V : Type}
    (wm : WorkflowManager V) (name : String) (agents : PyDict (AgentFun V))
    (initial : Option (PyDict V)) (v : ExecValue V) (wm' : WorkflowManager V)
    (after : Option (PyDict V))
    (hrun : execute_workflow wm name agents initial = .ok (v, wm', after)) :
    v.resultsOf.map (fun sr => sr.step) = List.range' 1 v.resultsOf.length ∧
    (∀ sr ∈ v.resultsOf.dropLast, sr.success = true) ∧
    executionTrace wm name agents initial = v.resultsOf.map (fun sr => sr.step) ∧
    ∀ r : ExecutionRecord V, v = .record r →
      r.steps_completed = r.results.length ∧ r.steps_completed ≤ r.total_steps := by
  cases hwf : PyDict.lookup wm.workflows name with
  | none => simp [execute_workflow, hwf] at hrun
  | some wf =>
    obtain ⟨newR, h1, h2, h3, h4, h5⟩ :=
      runSteps_shape agents wf.steps 0 (initialContextValue initial) [] []
    cases hE : runSteps agents wf.steps 0 (initialContextValue initial) [] [] with
    | missing err results ctxEnd inv =>
        rw [hE] at h1 h2
        simp [LoopOut.results, LoopOut.invoked] at h1 h2
        subst h1
        subst h2
        simp [execute_workflow, hwf, hE] at hrun
        obtain ⟨hv, hwm, hafter⟩ := hrun
        subst hv
        refine ⟨by simpa [ExecValue.resultsOf] using h3, ?_, ?_, ?_⟩
        · simpa [ExecValue.resultsOf] using h5
        · simp [executionTrace, hwf, hE, LoopOut.invoked, ExecValue.resultsOf]
        · intro r hr
          simp at hr
    | finished results ctxEnd inv =>
        rw [hE] at h1 h2
        simp [LoopOut.results, LoopOut.invoked] at h1 h2
        subst h1
        subst h2
        simp [execute_workflow, hwf, hE] at hrun
        obtain ⟨hv, hwm, hafter⟩ := hrun
        subst hv
        refine ⟨by simpa [ExecValue.resultsOf] using h3, ?_, ?_, ?_⟩
        · simpa [ExecValue.resultsOf] using h5
        · simp [executionTrace, hwf, hE, LoopOut.invoked, ExecValue.resultsOf]
        · intro r hr
          simp [ExecValue.record.injEq] at hr
          subst hr
          exact ⟨rfl, h4⟩

/-- Witness for C4 at a concrete input. -/
theorem workflow_halts_on_first_failure_witness :
    (ExecValue.record recEmptySteps).resultsOf.map (fun sr => sr.step)
      = List.range' 1 (ExecValue.record recEmptySteps).resultsOf.length ∧
    (∀ sr ∈ (ExecValue.record recEmptySteps).resultsOf.dropLast, sr.success = true) ∧
    executionTrace wmEmptySteps "w" [] none
      = (ExecValue.record recEmptySteps).resultsOf.map (fun sr => sr.step) ∧
    ∀ r : ExecutionRecord Nat, ExecValue.record recEmptySteps = .record r →
      r.steps_completed = r.results.length ∧ r.steps_completed ≤ r.total_steps :=
  workflow_halts_on_first_failure wmEmptySteps "w" [] none
    (ExecValue.record recEmptySteps) ⟨wmEmptySteps.workflows, [recEmptySteps]⟩ none
    (by decide)

/-- C5: the returned `success` flag of an execution record is true only if
every appended step result reports success, and executing a workflow whose
step list is empty returns `success = true` and `steps_completed = 0`. -/
theorem workflow_success_only_if_all_steps {V : Type}
    (wm : WorkflowManager V) (name : String) (agents : PyDict (AgentFun V))
    (initial : Option (PyDict V)) (wf : Workflow V) (r : ExecutionRecord V)
    (wm' : WorkflowManager V) (after : Option (PyDict V))
    (hwf : PyDict.lookup wm.workflows name = some wf)
    (hrun : execute_workflow wm name agents initial = .ok (.record r, wm', after)) :
    (r.success = true → ∀ sr ∈ r.results, sr.success = true) ∧
    (wf.steps = [] → r.success = true ∧ r.steps_completed = 0) := by
  cases hE : runSteps agents wf.steps 0 (initialContextValue initial) [] [] with
  | missing err results ctxEnd inv =>
      simp [execute_workflow, hwf, hE] at hrun
  | finished results ctxEnd inv =>
      simp [execute_workflow, hwf, hE] at hrun
      obtain ⟨hv, hwm, hafter⟩ := hrun
      constructor
      · intro hs sr hsr
        rw [← hv] at hs hsr
        simp at hs hsr
        exact hs sr hsr
      · intro hnil
        rw [hnil] at hE
        simp [runSteps] at hE
        obtain ⟨hres, hctx, hinv⟩ := hE
        subst hv
        subst hres
        exact ⟨rfl, rfl⟩

/-- Helper for C1: running the loop over a block of steps whose agents are all
present and always succeed, followed by a step whose agent is missing, ends in
the early-return outcome with exactly one result per completed prefix step,
consecutively indexed, and nothing for the missing step. -/
theorem runSteps_prefix_missing {V : Type} (agents : PyDict (AgentFun V))
    (pre : List (Step V)) (s : Step V) (rest : List (Step V))
    (hpre : ∀ p ∈ pre, ∃ f, p.agent.bind (fun n => PyDict.lookup agents n) = some f ∧
      ∀ c, ∃ r, f p.task c = .ok r ∧ r.success.getD true = true)
    (hmiss : s.agent.bind (fun n => PyDict.lookup agents n) = none) :
    ∀ (i : Nat) (ctx : PyDict V) (acc : List (StepResult V)) (inv : List Nat),
    ∃ newR ctxEnd,
      runSteps agents (pre ++ s :: rest) i ctx acc inv
        = .missing (notFoundMessage s.agent (i + pre.length + 1)) (acc ++ newR)
            ctxEnd (inv ++ newR.map (fun sr => sr.step)) ∧
      newR.length = pre.length ∧
      newR.map (fun sr => sr.step) = List.range' (i + 1) newR.length ∧
      (∀ sr ∈ newR, sr.success = true) := by
  induction pre with
  | nil =>
      intro i ctx acc inv
      refine ⟨[], ctx, ?_, rfl, by simp [List.range'], by simp⟩
      simp [runSteps, hmiss]
  | cons p pre' ih =>
      intro i ctx acc inv
      obtain ⟨f, hf, hok⟩ := hpre p (List.mem_cons_self p pre')
      obtain ⟨r, hr, hrs⟩ := hok (stepContextOf ctx p)
      have hpre' : ∀ q ∈ pre', ∃ f, q.agent.bind (fun n => PyDict.lookup agents n) = some f ∧
          ∀ c, ∃ r, f q.task c = .ok r ∧ r.success.getD true = true :=
        fun q hq => hpre q (List.mem_cons_of_mem p hq)
      obtain ⟨newR', ctxEnd, hrun, hlen, hmap, hsucc⟩ :=
        ih hpre' (i + 1) (contextAfterStep ctx r)
          (acc ++ [⟨i + 1, p.agent, p.task, some r, r.success.getD true, none⟩])
          (inv ++ [i + 1])
      refine ⟨⟨i + 1, p.agent, p.task, some r, r.success.getD true, none⟩ :: newR',
        ctxEnd, ?_, by simp [hlen], ?_, ?_⟩
      · have hstep : runSteps agents ((p :: pre') ++ s :: rest) i ctx acc inv
            = runSteps agents (pre' ++ s :: rest) (i + 1) (contextAfterStep ctx r)
                (acc ++ [⟨i + 1, p.agent, p.task, some r, r.success.getD true, none⟩])
                (inv ++ [i + 1]) := by
          simp [runSteps, hf, hr, hrs]
        rw [hstep, hrun]
        have harith : i + 1 + pre'.length + 1 = i + (p :: pre').length + 1 := by
          simp [List.length_cons]
          omega
        rw [harith]
        simp
      · simp only [List.map_cons, List.length_cons]
        rw [show List.range' (i + 1) (newR'.length + 1)
            = (i + 1) :: List.range' (i + 2) newR'.length from rfl]
        rw [hmap]
      · intro sr hsr
        rcases List.mem_cons.mp hsr with h | h
        · rw [h]
          simpa using hrs
        · exact hsucc sr h

/-- C1 counterexample: a three-step workflow whose step 2 names an agent
absent from the agent map returns the early error dict of lines 82-86 — the
result carries only the single step-1 result, no failure StepResult for step 2
is appended, there is no `steps_completed` field (the outcome is not an
execution record), and the manager state is unchanged. -/
theorem workflow_missing_agent_no_step_record :
    execute_workflow wmThreeSteps "w" agentsAC none
      = Except.ok (ExecValue.missingAgent "Agent \x27b\x27 not found for step 2" [srA],
          wmThreeSteps, none) ∧
    srA.step = 1 ∧
    wmThreeSteps.execution_history = [] := by
  refine ⟨by decide, rfl, rfl⟩

/-- C1 (amended): when every step before position p succeeds and the step at
position p names an agent absent from the agent map, `execute_workflow` stops
and returns the early error dict `\x7bsuccess: False, error, results\x7d`: the
error names the missing agent and the 1-based step p+1, `results` holds
exactly the p completed step results (indices 1..p, all successful) — but no
failure StepResult is appended for the missing step, the returned dict carries
no `steps_completed` count, and the manager state (hence its history) is left
unchanged. -/
theorem workflow_missing_agent_early_return {V : Type}
    (wm : WorkflowManager V) (name : String) (agents : PyDict (AgentFun V))
    (initial : Option (PyDict V)) (wf : Workflow V)
    (pre : List (Step V)) (s : Step V) (rest : List (Step V))
    (hwf : PyDict.lookup wm.workflows name = some wf)
    (hsteps : wf.steps = pre ++ s :: rest)
    (hpre : ∀ p ∈ pre, ∃ f, p.agent.bind (fun n => PyDict.lookup agents n) = some f ∧
      ∀ c, ∃ r, f p.task c = .ok r ∧ r.success.getD true = true)
    (hmiss : s.agent.bind (fun n => PyDict.lookup agents n) = none) :
    ∃ results ctxEnd,
      execute_workflow wm name agents initial
        = .ok (.missingAgent (notFoundMessage s.agent (pre.length + 1)) results,
            wm, callerContextAfter initial ctxEnd) ∧
      results.length = pre.length ∧
      (∀ sr ∈ results, sr.step ≠ pre.length + 1) ∧
      (∀ sr ∈ results, sr.success = true) := by
  obtain ⟨newR, ctxEnd, hrun, hlen, hmap, hsucc⟩ :=
    runSteps_prefix_missing agents pre s rest hpre hmiss 0
      (initialContextValue initial) [] []
  rw [← hsteps] at hrun
  refine ⟨newR, ctxEnd, ?_, hlen, ?_, hsucc⟩
  · simp [execute_workflow, hwf, hrun]
  · intro sr hsr
    have hm : sr.step ∈ newR.map (fun sr => sr.step) := List.mem_map_of_mem _ hsr
    rw [hmap] at hm
    have := List.mem_range'.mp hm
    omega

/-- Witness for the amended C1 theorem at a concrete input. -/
theorem workflow_missing_agent_early_return_witness :
    ∃ results ctxEnd,
      execute_workflow wmThreeSteps "w" agentsAC none
        = .ok (.missingAgent (notFoundMessage (some "b") ([stepA].length + 1)) results,
            wmThreeSteps, callerContextAfter none ctxEnd) ∧
      results.length = [stepA].length ∧
      (∀ sr ∈ results, sr.step ≠ [stepA].length + 1) ∧
      (∀ sr ∈ results, sr.success = true) :=
  workflow_missing_agent_early_return wmThreeSteps "w" agentsAC none
    ⟨"w", "", [stepA, stepB, stepC], "created"⟩ [stepA] stepB [stepC]
    (by decide) rfl
    (by
      intro p hp
      have hp2 : p = stepA := by simpa using hp
      subst hp2
      exact ⟨okAgentNat, rfl, fun c => ⟨⟨some true, none⟩, rfl, rfl⟩⟩)
    rfl

/-- C2 counterexample: a run that stops on an agent-map miss (here already at
step 1) returns with the manager state unchanged — its execution history is
still empty, no execution record was appended for this run. -/
theorem workflow_history_skipped_on_missing_agent :
    execute_workflow wmThreeSteps "w" [] none
      = Except.ok (ExecValue.missingAgent "Agent \x27a\x27 not found for step 1" [],
          wmThreeSteps, none) ∧
    wmThreeSteps.execution_history = [] := by
  exact ⟨by decide, rfl⟩

/-- C2 (amended): a run of a known workflow that completes the loop (all steps
succeed, a step reports failure, or a step raises) appends exactly its
execution record to the history; a run that stops on an agent-lookup miss
appends nothing.  In every case the previous history is a prefix of the new
one, and neither `create_workflow` nor `delete_workflow` ever touches the
history — no operation removes records. -/
theorem workflow_history_never_pruned {V : Type} (wm : WorkflowManager V) :
    (∀ (name : String) (agents : PyDict (AgentFun V)) (initial : Option (PyDict V))
        (v : ExecValue V) (wm' : WorkflowManager V) (after : Option (PyDict V)),
      execute_workflow wm name agents initial = .ok (v, wm', after) →
      wm.execution_history <+: wm'.execution_history ∧
      (∀ r, v = .record r → wm'.execution_history = wm.execution_history ++ [r]) ∧
      (∀ e res, v = .missingAgent e res → wm'.execution_history = wm.execution_history)) ∧
    (∀ (name description : String) (steps : List (Step V)) (wf : Workflow V)
        (wm2 : WorkflowManager V),
      create_workflow wm name description steps = .ok (wf, wm2) →
      wm2.execution_history = wm.execution_history) ∧
    (∀ name : String, (delete_workflow wm name).2.execution_history
      = wm.execution_history) := by
  refine ⟨?_, ?_, ?_⟩
  · intro name agents initial v wm' after hrun
    cases hwf : PyDict.lookup wm.workflows name with
    | none => simp [execute_workflow, hwf] at hrun
    | some wf =>
      cases hE : runSteps agents wf.steps 0 (initialContextValue initial) [] [] with
      | missing err results ctxEnd inv =>
          simp [execute_workflow, hwf, hE] at hrun
          obtain ⟨hv, hwm, hafter⟩ := hrun
          subst hv
          subst hwm
          refine ⟨List.prefix_refl _, ?_, fun e res h => rfl⟩
          intro r hr
          simp at hr
      | finished results ctxEnd inv =>
          simp [execute_workflow, hwf, hE] at hrun
          obtain ⟨hv, hwm, hafter⟩ := hrun
          subst hv
          subst hwm
          refine ⟨⟨_, rfl⟩, ?_, ?_⟩
          · intro r hr
            simp [ExecValue.record.injEq] at hr
            rw [hr]
          · intro e res h
            simp at h
  · intro name description steps wf wm2 hcr
    by_cases h : (PyDict.lookup wm.workflows name).isSome
    · simp [create_workflow, h] at hcr
    · simp [create_workflow, h] at hcr
      rw [← hcr.2]
  · intro name
    by_cases h : (PyDict.lookup wm.workflows name).isSome <;>
      simp [delete_workflow, h]

/-- Witness for the amended C2 theorem at a concrete input. -/
theorem workflow_history_never_pruned_witness :
    (∀ (name : String) (agents : PyDict (AgentFun Nat)) (initial : Option (PyDict Nat))
        (v : ExecValue Nat) (wm' : WorkflowManager Nat) (after : Option (PyDict Nat)),
      execute_workflow wmThreeSteps name agents initial = .ok (v, wm', after) →
      wmThreeSteps.execution_history <+: wm'.execution_history ∧
      (∀ r, v = .record r → wm'.execution_history = wmThreeSteps.execution_history ++ [r]) ∧
      (∀ e res, v = .missingAgent e res →
        wm'.execution_history = wmThreeSteps.execution_history)) ∧
    (∀ (name description : String) (steps : List (Step Nat)) (wf : Workflow Nat)
        (wm2 : WorkflowManager Nat),
      create_workflow wmThreeSteps name description steps = .ok (wf, wm2) →
      wm2.execution_history = wmThreeSteps.execution_history) ∧
    (∀ name : String, (delete_workflow wmThreeSteps name).2.execution_history
      = wmThreeSteps.execution_history) :=
  workflow_history_never_pruned wmThreeSteps

/-- Helper for C3: when every reachable agent result carries an absent or
empty `output_context`, the loop never changes `context`. -/
theorem runSteps_ctx_const {V : Type} (agents : PyDict (AgentFun V))
    (steps : List (Step V))
    (hEmpty : ∀ s ∈ steps, ∀ f, s.agent.bind (fun n => PyDict.lookup agents n) = some f →
      ∀ t c r, f t c = .ok r → r.output_context.getD [] = []) :
    ∀ (i : Nat) (ctx : PyDict V) (acc : List (StepResult V)) (inv : List Nat),
    (runSteps agents steps i ctx acc inv).ctxOut = ctx := by
  induction steps with
  | nil => intro i ctx acc inv; simp [runSteps, LoopOut.ctxOut]
  | cons s rest ih =>
      intro i ctx acc inv
      have hrest : ∀ q ∈ rest, ∀ f,
          q.agent.bind (fun n => PyDict.lookup agents n) = some f →
          ∀ t c r, f t c = .ok r → r.output_context.getD [] = [] :=
        fun q hq => hEmpty q (List.mem_cons_of_mem s hq)
      cases hag : s.agent.bind (fun n => PyDict.lookup agents n) with
      | none => simp [runSteps, hag, LoopOut.ctxOut]
      | some f =>
        cases hbeh : f s.task (stepContextOf ctx s) with
        | raise msg => simp [runSteps, hag, hbeh, LoopOut.ctxOut]
        | ok r =>
          cases hsucc : r.success.getD true with
          | false => simp [runSteps, hag, hbeh, hsucc, LoopOut.ctxOut]
          | true =>
              have hout : r.output_context.getD [] = [] :=
                hEmpty s (List.mem_cons_self s rest) f hag s.task
                  (stepContextOf ctx s) r hbeh
              have hctx : contextAfterStep ctx r = ctx := by
                simp [contextAfterStep, hout, PyDict.update_nil]
              have := ih hrest (i + 1) (contextAfterStep ctx r)
                (acc ++ [⟨i + 1, s.agent, s.task, some r, r.success.getD true, none⟩])
                (inv ++ [i + 1])
              simpa [runSteps, hag, hbeh, hsucc, hctx] using this

/-- C3 counterexample: with a non-empty caller `initial_context` and a
successful step contributing an `output_context` key, the caller's dict holds
the merged binding after the call — it was mutated, not copied. -/
theorem workflow_initial_context_mutated :
    execute_workflow wmOneStep "w" [("a", outAgentNat)] (some [("a0", 0)])
      = Except.ok (ExecValue.record recOut,
          ⟨wmOneStep.workflows, [recOut]⟩, some [("a0", 0), ("k", 1)]) ∧
    ([("a0", 0), ("k", 1)] : PyDict Nat) ≠ [("a0", 0)] := by
  exact ⟨by decide, by decide⟩

/-- C3 (amended): `context = initial_context or \x7b\x7d` aliases a non-empty
`initial_context` instead of copying it, so after the call the caller's dict
holds the run's final context (every successful step's `output_context` merge
lands in it); the caller's dict is unchanged exactly in the benign cases: when
`initial_context` is absent or empty (a fresh dict is used), or when no
successful step contributes any `output_context` key. -/
theorem workflow_initial_context_aliased {V : Type}
    (wm : WorkflowManager V) (name : String) (agents : PyDict (AgentFun V))
    (initial : Option (PyDict V)) (v : ExecValue V) (wm' : WorkflowManager V)
    (after : Option (PyDict V)) (wf : Workflow V)
    (hwf : PyDict.lookup wm.workflows name = some wf)
    (hrun : execute_workflow wm name agents initial = .ok (v, wm', after)) :
    (initial = none → after = none) ∧
    (∀ d, initial = some d → List.isEmpty d = true → after = some d) ∧
    (∀ d r, initial = some d → List.isEmpty d = false → v = .record r →
      after = some r.final_context) ∧
    ((∀ s ∈ wf.steps, ∀ f, s.agent.bind (fun n => PyDict.lookup agents n) = some f →
        ∀ t c r, f t c = .ok r → r.output_context.getD [] = []) →
      after = initial) := by
  cases hE : runSteps agents wf.steps 0 (initialContextValue initial) [] [] with
  | missing err results ctxEnd inv =>
      simp [execute_workflow, hwf, hE] at hrun
      obtain ⟨hv, hwm, hafter⟩ := hrun
      subst hv
      refine ⟨?_, ?_, ?_, ?_⟩
      · intro h
        subst h
        exact hafter.symm
      · intro d hd hde
        subst hd
        rw [← hafter]
        simp [callerContextAfter, hde]
      · intro d r hd hde hr
        simp at hr
      · intro hEmpty
        have hc := runSteps_ctx_const agents wf.steps hEmpty 0
          (initialContextValue initial) [] []
        rw [hE] at hc
        simp [LoopOut.ctxOut] at hc
        rw [← hafter, hc]
        cases initial with
        | none => rfl
        | some d => simp [callerContextAfter, initialContextValue]
  | finished results ctxEnd inv =>
      simp [execute_workflow, hwf, hE] at hrun
      obtain ⟨hv, hwm, hafter⟩ := hrun
      refine ⟨?_, ?_, ?_, ?_⟩
      · intro h
        subst h
        exact hafter.symm
      · intro d hd hde
        subst hd
        rw [← hafter]
        simp [callerContextAfter, hde]
      · intro d r hd hde hr
        subst hd
        rw [← hv] at hr
        simp [ExecValue.record.injEq] at hr
        rw [← hafter, ← hr]
        simp [callerContextAfter, hde]
      · intro hEmpty
        have hc := runSteps_ctx_const agents wf.steps hEmpty 0
          (initialContextValue initial) [] []
        rw [hE] at hc
        simp [LoopOut.ctxOut] at hc
        rw [← hafter, hc]
        cases initial with
        | none => rfl
        | some d => simp [callerContextAfter, initialContextValue]

/-- Witness for the amended C3 theorem at a concrete input. -/
theorem workflow_initial_context_aliased_witness :
    ((some [("a0", 0)] : Option (PyDict Nat)) = none → (some [("a0", 0), ("k", 1)] : Option (PyDict Nat)) = none) ∧
    (∀ d, (some [("a0", 0)] : Option (PyDict Nat)) = some d → List.isEmpty d = true →
      (some [("a0", 0), ("k", 1)] : Option (PyDict Nat)) = some d) ∧
    (∀ d r, (some [("a0", 0)] : Option (PyDict Nat)) = some d → List.isEmpty d = false →
      ExecValue.record recOut = .record r →
      (some [("a0", 0), ("k", 1)] : Option (PyDict Nat)) = some r.final_context) ∧
    ((∀ s ∈ ([stepA] : List (Step Nat)), ∀ f,
        s.agent.bind (fun n => PyDict.lookup ([("a", outAgentNat)] : PyDict (AgentFun Nat)) n) = some f →
        ∀ t c r, f t c = .ok r → r.output_context.getD [] = []) →
      (some [("a0", 0), ("k", 1)] : Option (PyDict Nat)) = some [("a0", 0)]) :=
  workflow_initial_context_aliased wmOneStep "w" [("a", outAgentNat)]
    (some [("a0", 0)]) (ExecValue.record recOut) ⟨wmOneStep.workflows, [recOut]⟩
    (some [("a0", 0), ("k", 1)]) ⟨"w", "", [stepA], "created"⟩
    (by decide) (by decide)

/-- Helper for C6: when every step's agent is present and always returns a
successful result, the loop runs every step, producing one successful result
per step, and the final context is the initial context folded through the
steps' `output_context` merges, in order. -/
theorem runSteps_all_success {V : Type} (agents : PyDict (AgentFun V))
    (steps : List (Step V))
    (hok : ∀ s ∈ steps, ∃ f, s.agent.bind (fun n => PyDict.lookup agents n) = some f ∧
      ∀ c, ∃ r, f s.task c = .ok r ∧ r.success.getD true = true) :
    ∀ (i : Nat) (ctx : PyDict V) (acc : List (StepResult V)) (inv : List Nat),
    ∃ newR,
      runSteps agents steps i ctx acc inv
        = .finished (acc ++ newR)
            (newR.foldl (fun c sr => PyDict.update c (outputOf sr)) ctx)
            (inv ++ newR.map (fun sr => sr.step)) ∧
      newR.length = steps.length ∧
      (∀ sr ∈ newR, sr.success = true) := by
  induction steps with
  | nil =>
      intro i ctx acc inv
      exact ⟨[], by simp [runSteps], rfl, by simp⟩
  | cons s rest ih =>
      intro i ctx acc inv
      obtain ⟨f, hf, hfr⟩ := hok s (List.mem_cons_self s rest)
      obtain ⟨r, hr, hrs⟩ := hfr (stepContextOf ctx s)
      have hrest : ∀ q ∈ rest, ∃ f,
          q.agent.bind (fun n => PyDict.lookup agents n) = some f ∧
          ∀ c, ∃ r, f q.task c = .ok r ∧ r.success.getD true = true :=
        fun q hq => hok q (List.mem_cons_of_mem s hq)
      obtain ⟨newR', hrun, hlen, hsucc⟩ :=
        ih hrest (i + 1) (contextAfterStep ctx r)
          (acc ++ [⟨i + 1, s.agent, s.task, some r, r.success.getD true, none⟩])
          (inv ++ [i + 1])
      refine ⟨⟨i + 1, s.agent, s.task, some r, r.success.getD true, none⟩ :: newR',
        ?_, by simp [hlen], ?_⟩
      · have hstep : runSteps agents (s :: rest) i ctx acc inv
            = runSteps agents rest (i + 1) (contextAfterStep ctx r)
                (acc ++ [⟨i + 1, s.agent, s.task, some r, r.success.getD true, none⟩])
                (inv ++ [i + 1]) := by
          simp [runSteps, hf, hr, hrs]
        rw [hstep, hrun]
        have hfold : List.foldl (fun c sr => PyDict.update c (outputOf sr))
              (contextAfterStep ctx r) newR'
            = List.foldl (fun c sr => PyDict.update c (outputOf sr)) ctx
                (⟨i + 1, s.agent, s.task, some r, r.success.getD true, none⟩ :: newR') := by
          simp [List.foldl_cons, outputOf, contextAfterStep]
        rw [hfold]
        simp
      · intro sr hsr
        rcases List.mem_cons.mp hsr with h | h
        · rw [h]
          simpa using hrs
        · exact hsucc sr h

/-- C6: the context handed to a step's agent is the shared context merged with
the step's own context, where step-level keys shadow shared keys for that call
only (first two conjuncts); a later `output_context` merge overrides earlier
bindings of the same key (third conjunct); after a successful step the shared
context carried to the next iteration is the previous shared context merged
with the result's `output_context` alone — the step's own context keys do not
persist (fourth conjunct); over a run of all-successful steps the final
context is the initial context folded through the steps' `output_context`
merges in order, with one successful result per step (fifth conjunct). -/
theorem workflow_context_merge_semantics {V : Type} :
    (∀ (ctx : PyDict V) (s : Step V) (k : String) (v : V),
        (PyDict.keys s.context).Nodup → PyDict.lookup s.context k = some v →
        PyDict.lookup (stepContextOf ctx s) k = some v) ∧
    (∀ (ctx : PyDict V) (s : Step V) (k : String), k ∉ PyDict.keys s.context →
        PyDict.lookup (stepContextOf ctx s) k = PyDict.lookup ctx k) ∧
    (∀ (ctx : PyDict V) (r : AgentResult V) (k : String) (v : V),
        (PyDict.keys (r.output_context.getD [])).Nodup →
        PyDict.lookup (r.output_context.getD []) k = some v →
        PyDict.lookup (contextAfterStep ctx r) k = some v) ∧
    (∀ (agents : PyDict (AgentFun V)) (s : Step V) (rest : List (Step V)) (i : Nat)
        (ctx : PyDict V) (acc : List (StepResult V)) (inv : List Nat)
        (f : AgentFun V) (r : AgentResult V),
        s.agent.bind (fun n => PyDict.lookup agents n) = some f →
        f s.task (stepContextOf ctx s) = .ok r → r.success.getD true = true →
        runSteps agents (s :: rest) i ctx acc inv
          = runSteps agents rest (i + 1) (contextAfterStep ctx r)
              (acc ++ [⟨i + 1, s.agent, s.task, some r, r.success.getD true, none⟩])
              (inv ++ [i + 1])) ∧
    (∀ (agents : PyDict (AgentFun V)) (steps : List (Step V)),
        (∀ s ∈ steps, ∃ f, s.agent.bind (fun n => PyDict.lookup agents n) = some f ∧
          ∀ c, ∃ r, f s.task c = .ok r ∧ r.success.getD true = true) →
        ∀ (i : Nat) (ctx : PyDict V) (acc : List (StepResult V)) (inv : List Nat),
        ∃ newR,
          runSteps agents steps i ctx acc inv
            = .finished (acc ++ newR)
                (newR.foldl (fun c sr => PyDict.update c (outputOf sr)) ctx)
                (inv ++ newR.map (fun sr => sr.step)) ∧
          newR.length = steps.length ∧
          (∀ sr ∈ newR, sr.success = true)) := by
  refine ⟨?_, ?_, ?_, ?_, ?_⟩
  · intro ctx s k v hnd h
    exact PyDict.lookup_update_mem ctx s.context k v hnd h
  · intro ctx s k h
    exact PyDict.lookup_update_notMem ctx s.context k h
  · intro ctx r k v hnd h
    exact PyDict.lookup_update_mem ctx (r.output_context.getD []) k v hnd h
  · intro agents s rest i ctx acc inv f r hf hr hrs
    simp [runSteps, hf, hr, hrs]
  · intro agents steps hok i ctx acc inv
    exact runSteps_all_success agents steps hok i ctx acc inv

/-- Witness for C6 at concrete inputs. -/
theorem workflow_context_merge_semantics_witness :
    PyDict.lookup (stepContextOf [("x", 0)] stepD) "k" = some 5 ∧
    PyDict.lookup (stepContextOf [("x", 0)] stepD) "x" = PyDict.lookup [("x", 0)] "x" ∧
    PyDict.lookup (contextAfterStep [("k", 0)] ⟨some true, some [("k", 7)]⟩) "k" = some 7 ∧
    runSteps [("a", okAgentNat)] [stepD] 0 [] [] []
      = runSteps [("a", okAgentNat)] [] 1
          (contextAfterStep [] ⟨some true, none⟩)
          ([] ++ [⟨1, some "a", some "t", some ⟨some true, none⟩,
            (⟨some true, none⟩ : AgentResult Nat).success.getD true, none⟩])
          ([] ++ [1]) ∧
    ∃ newR,
      runSteps ([] : PyDict (AgentFun Nat)) [] 0 [("x", 0)] [] []
        = .finished ([] ++ newR)
            (newR.foldl (fun c sr => PyDict.update c (outputOf sr)) [("x", 0)])
            ([] ++ newR.map (fun sr => sr.step)) ∧
      newR.length = ([] : List (Step Nat)).length ∧
      (∀ sr ∈ newR, sr.success = true) := by
  refine ⟨?_, ?_, ?_, ?_, ?_⟩
  · exact (workflow_context_merge_semantics (V := Nat)).1 [("x", 0)] stepD "k" 5
      (by decide) (by decide)
  · exact (workflow_context_merge_semantics (V := Nat)).2.1 [("x", 0)] stepD "x"
      (by decide)
  · exact (workflow_context_merge_semantics (V := Nat)).2.2.1 [("k", 0)]
      ⟨some true, some [("k", 7)]⟩ "k" 7 (by decide) (by decide)
  · exact (workflow_context_merge_semantics (V := Nat)).2.2.2.1
      [("a", okAgentNat)] stepD [] 0 [] [] [] okAgentNat ⟨some true, none⟩
      rfl rfl rfl
  · exact (workflow_context_merge_semantics (V := Nat)).2.2.2.2
      [] [] (by simp) 0 [("x", 0)] [] []

/-- Witness for C5 at a concrete input. -/
theorem workflow_success_only_if_all_steps_witness :
    (recEmptySteps.success = true → ∀ sr ∈ recEmptySteps.results, sr.success = true) ∧
    (([] : List (Step Nat)) = [] →
      recEmptySteps.success = true ∧ recEmptySteps.steps_completed = 0) :=
  workflow_success_only_if_all_steps wmEmptySteps "w" [] none
    ⟨"w", "", [], "created"⟩ recEmptySteps
    ⟨wmEmptySteps.workflows, [recEmptySteps]⟩ none (by decide) (by decide)

/-- C7: `export_state` followed by `deserialize_agent` with the same agent
class reproduces the original agent state exactly — in particular `name`,
`type`, `config` and `history` round-trip for an agent with any number of
logged executions, and `created_at` and `metadata` are overwritten from the
document (hence equal to the original's); the remaining constructor-derived
attributes come from the same `config`. -/
theorem export_deserialize_roundtrip {V : Type} (a : BaseAgentState V)
    (cls : AgentClassSpec) (now : String) (hcls : cls.typeName = a.agent_type) :
    deserialize_agent (export_state a) cls now = a := by
  cases a
  simp [deserialize_agent, export_state, mkBaseAgent] at hcls ⊢
  exact hcls

/-- Witness for C7 at a concrete input. -/
theorem export_deserialize_roundtrip_witness :
    deserialize_agent
        (export_state (⟨"n", [("c", 1)], "CodingAgent", "T0", ⟨"1.0.0", ["cap"]⟩,
          [42, 43]⟩ : BaseAgentState Nat))
        ⟨"CodingAgent", ["cap"]⟩ "T1"
      = ⟨"n", [("c", 1)], "CodingAgent", "T0", ⟨"1.0.0", ["cap"]⟩, [42, 43]⟩ :=
  export_deserialize_roundtrip
    ⟨"n", [("c", 1)], "CodingAgent", "T0", ⟨"1.0.0", ["cap"]⟩, [42, 43]⟩
    ⟨"CodingAgent", ["cap"]⟩ "T1" rfl

/-- C8: for each of the four concrete agents, calling `execute` with a `None`
or non-string task or a non-mapping context returns the failure dict
(`success = False`, error `"Invalid input provided"`, null payload) and
performs nothing — no history entry, no bookkeeping append, the agent state is
returned unchanged, because the `validate_input` check is the first thing
every concrete `execute` runs. -/
theorem concrete_execute_validates_first (task context : PyVal) (now : String)
    (h : (∀ s, task ≠ .pystr s) ∨
      (context ≠ .pynone ∧ ∀ d, context ≠ .pydict d)) :
    (∀ a : CodingAgentState, coding_execute a task context now
      = (⟨false, some "Invalid input provided", none, none, none⟩, a)) ∧
    (∀ a : DebuggingAgentState, debugging_execute a task context now
      = (⟨false, some "Invalid input provided", none, none, none⟩, a)) ∧
    (∀ a : PlanningAgentState, planning_execute a task context now
      = (⟨false, some "Invalid input provided", none, none, none, none, none⟩, a)) ∧
    (∀ a : BuildingAgentState, building_execute a task context now
      = (⟨false, some "Invalid input provided", none, none, none, none⟩, a)) := by
  have hv : validate_input task context = false := by
    rcases h with h | ⟨hn, hd⟩
    · cases task with
      | pystr s => exact absurd rfl (h s)
      | pynone => rfl
      | pyint n => rfl
      | pybool b => rfl
      | pylist xs => rfl
      | pydict d => rfl
    · cases task with
      | pystr s =>
          cases context with
          | pynone => exact absurd rfl hn
          | pydict d => exact absurd rfl (hd d)
          | pyint n => rfl
          | pybool b => rfl
          | pylist xs => rfl
          | pystr s2 => rfl
      | pynone => rfl
      | pyint n => rfl
      | pybool b => rfl
      | pylist xs => rfl
      | pydict d => rfl
  refine ⟨?_, ?_, ?_, ?_⟩ <;> intro a <;>
    simp [coding_execute, debugging_execute, planning_execute, building_execute, hv]

/-- Witness for C8 at a concrete input. -/
theorem concrete_execute_validates_first_witness :
    (∀ a : CodingAgentState, coding_execute a .pynone .pynone "T0"
      = (⟨false, some "Invalid input provided", none, none, none⟩, a)) ∧
    (∀ a : DebuggingAgentState, debugging_execute a .pynone .pynone "T0"
      = (⟨false, some "Invalid input provided", none, none, none⟩, a)) ∧
    (∀ a : PlanningAgentState, planning_execute a .pynone .pynone "T0"
      = (⟨false, some "Invalid input provided", none, none, none, none, none⟩, a)) ∧
    (∀ a : BuildingAgentState, building_execute a .pynone .pynone "T0"
      = (⟨false, some "Invalid input provided", none, none, none, none⟩, a)) :=
  concrete_execute_validates_first .pynone .pynone "T0"
    (Or.inl (fun _ hs => PyVal.noConfusion hs))

/-- C9: a created agent is stored under its name — `get_agent` returns the
very instance `create_agent` returned; a second `create_agent` with the same
name and any registered type raises the duplicate-name ValueError, and since
the exception propagates before any state change, the first instance is still
what `get_agent` returns afterwards. -/
theorem create_agent_duplicate_name {V : Type} (fs : FactoryState V)
    (t n : String) (cfg : Option (PyDict V)) (now : String)
    (a : BaseAgentState V) (fs' : FactoryState V)
    (h : create_agent fs t n cfg now = .ok (a, fs')) :
    get_agent fs' n = some a ∧
    ∀ (t2 : String) (cls2 : AgentClassSpec) (cfg2 : Option (PyDict V)) (now2 : String),
      PyDict.lookup fs'.registry t2 = some cls2 →
      create_agent fs' t2 n cfg2 now2
        = .error ("Agent with name \x27" ++ n ++ "\x27 already exists") := by
  cases hreg : PyDict.lookup fs.registry t with
  | none => simp [create_agent, hreg] at h
  | some cls =>
    by_cases hact : (PyDict.lookup fs.active_agents n).isSome
    · simp [create_agent, hreg, hact] at h
    · simp [create_agent, hreg, hact] at h
      obtain ⟨ha, hfs⟩ := h
      have hget : get_agent fs' n = some a := by
        rw [← hfs]
        simpa [get_agent, ha] using PyDict.lookup_insert_self fs.active_agents n a
      refine ⟨hget, ?_⟩
      intro t2 cls2 cfg2 now2 hreg2
      have hsome : (PyDict.lookup fs'.active_agents n).isSome = true := by
        simp [get_agent] at hget
        simp [hget]
      simp [create_agent, hreg2, hsome]

/-- Witness for C9 at a concrete input. -/
theorem create_agent_duplicate_name_witness :
    get_agent ⟨fsSample.registry, [("n1", agentSample)]⟩ "n1" = some agentSample ∧
    ∀ (t2 : String) (cls2 : AgentClassSpec) (cfg2 : Option (PyDict Nat)) (now2 : String),
      PyDict.lookup (⟨fsSample.registry, [("n1", agentSample)]⟩ : FactoryState Nat).registry t2
        = some cls2 →
      create_agent (⟨fsSample.registry, [("n1", agentSample)]⟩ : FactoryState Nat)
          t2 "n1" cfg2 now2
        = .error ("Agent with name \x27n1\x27 already exists") :=
  create_agent_duplicate_name fsSample "coding" "n1" none "T0" agentSample
    ⟨fsSample.registry, [("n1", agentSample)]⟩ (by decide)

theorem hread_append_fresh {α : Type} (h : HeapList α) (xs : List α) :
    hread (h ++ [xs]) h.length = xs := by
  induction h with
  | nil => rfl
  | cons a t ih =>
      simp only [hread, List.getD] at ih ⊢
      simp [ih]

theorem hread_append_old {α : Type} (h : HeapList α) (xs : List α) (m : Nat)
    (hm : m < h.length) : hread (h ++ [xs]) m = hread h m := by
  induction h generalizing m with
  | nil => simp at hm
  | cons a t ih =>
      cases m with
      | zero => rfl
      | succ m2 =>
          have hm2 : m2 < t.length := by simpa using hm
          simp [hread, List.getD] at ih ⊢
          exact ih m2 hm2

theorem hread_hwrite_ne {α : Type} (h : HeapList α) (r m : Nat) (hne : r ≠ m)
    (ys : List α) : hread (hwrite h r ys) m = hread h m := by
  induction h generalizing r m with
  | nil => rfl
  | cons a t ih =>
      cases r with
      | zero =>
          cases m with
          | zero => exact absurd rfl hne
          | succ m2 => rfl
      | succ r2 =>
          cases m with
          | zero => rfl
          | succ m2 =>
              have : r2 ≠ m2 := fun hc => hne (by rw [hc])
              simpa [hread, hwrite, List.getD] using ih r2 m2 this

/-- C10: `get_execution_history` and `get_history` return a copy of the
stored history list — the returned reference is fresh, its contents equal the
stored list's, the stored list still reads the same, and any subsequent
mutation through the returned reference (appending, removing, clearing) leaves
the stored history unchanged. -/
theorem history_getters_return_copy {α : Type} (h : HeapList α) (m : Nat)
    (ys : List α) (hm : m < h.length) :
    hread (get_execution_history_call h m).2 (get_execution_history_call h m).1
      = hread h m ∧
    hread (get_execution_history_call h m).2 m = hread h m ∧
    hread (hwrite (get_execution_history_call h m).2
        (get_execution_history_call h m).1 ys) m = hread h m ∧
    hread (get_history_call h m).2 (get_history_call h m).1 = hread h m ∧
    hread (get_history_call h m).2 m = hread h m ∧
    hread (hwrite (get_history_call h m).2 (get_history_call h m).1 ys) m
      = hread h m := by
  have hfresh : hread (h ++ [hread h m]) h.length = hread h m :=
    hread_append_fresh h (hread h m)
  have hold : hread (h ++ [hread h m]) m = hread h m :=
    hread_append_old h (hread h m) m hm
  have hne : h.length ≠ m := Nat.ne_of_gt hm
  have hwr : hread (hwrite (h ++ [hread h m]) h.length ys) m = hread h m := by
    rw [hread_hwrite_ne (h ++ [hread h m]) h.length m hne ys]
    exact hold
  exact ⟨hfresh, hold, hwr, hfresh, hold, hwr⟩

/-- Witness for C10 at a concrete input. -/
theorem history_getters_return_copy_witness :
    hread (get_execution_history_call [[1], [2]] 0).2
        (get_execution_history_call [[1], [2]] 0).1 = hread [[1], [2]] 0 ∧
    hread (get_execution_history_call [[1], [2]] 0).2 0 = hread [[1], [2]] 0 ∧
    hread (hwrite (get_execution_history_call [[1], [2]] 0).2
        (get_execution_history_call [[1], [2]] 0).1 []) 0 = hread [[1], [2]] 0 ∧
    hread (get_history_call [[1], [2]] 0).2
        (get_history_call [[1], [2]] 0).1 = hread [[1], [2]] 0 ∧
    hread (get_history_call [[1], [2]] 0).2 0 = hread [[1], [2]] 0 ∧
    hread (hwrite (get_history_call [[1], [2]] 0).2
        (get_history_call [[1], [2]] 0).1 []) 0 = hread ([[1], [2]] : HeapList Nat) 0 :=
  history_getters_return_copy [[1], [2]] 0 [] (by decide)

end AgentFactory
